import Mathlib

/-!
Shallow embedding of parts of the noodles genomics I/O library, with proofs
about its typed value codecs, string-dictionary encoders, and indexed
region-query iterators.
-/

/-! ## noodles-bam: `sequence::Base` (src/noodles-bam/src/sequence/base.rs) -/

/-- The sixteen IUPAC nucleotide bases of `noodles_bam::sequence::Base`. -/
inductive Base where
  | Eq | A | C | M | G | R | S | V | T | W | Y | H | K | D | B | N
  deriving DecidableEq, Repr

/-- Embedding of `Base::complement` (src/noodles-bam/src/sequence/base.rs:23-43). -/
def Base.complement : Base → Base
  | .Eq => .Eq
  | .A => .T
  | .C => .G
  | .G => .C
  | .T => .A
  | .W => .W
  | .S => .S
  | .M => .K
  | .K => .M
  | .R => .Y
  | .Y => .R
  | .B => .V
  | .D => .H
  | .H => .D
  | .V => .B
  | .N => .N

/-! ## noodles-sam: alignment record data field `Value`
(src/noodles-sam/src/alignment/record/data/field/value.rs)

Machine integers are modelled as `Int` with explicit range hypotheses at
the theorems; the `From` conversions only cast values already guarded to
be in range of the target width, so no wrapping occurs in the source. -/

/-- The SAM data field `Value` variants relevant to integer conversion.
Non-integer variants are collapsed into representatives sufficient for
`as_int` (which returns `None` on all of them). -/
inductive SamValue where
  | Character (c : Nat)
  | Int8 (n : Int)
  | UInt8 (n : Nat)
  | Int16 (n : Int)
  | UInt16 (n : Nat)
  | Int32 (n : Int)
  | UInt32 (n : Nat)
  | Float (bits : Nat)
  | Str (s : List Nat)
  deriving DecidableEq, Repr

namespace SamValue

/-- Embedding of `Value::as_int` (value.rs:202-212): integer variants are
widened to `i64` (here `Int`); all other variants give `None`. -/
def asInt : SamValue → Option Int
  | .Int8 n => some n
  | .UInt8 n => some (n : Int)
  | .Int16 n => some n
  | .UInt16 n => some (n : Int)
  | .Int32 n => some n
  | .UInt32 n => some (n : Int)
  | _ => none

/-- Embedding of `impl From<u8> for Value`. -/
def fromU8 (n : Nat) : SamValue := .UInt8 n

/-- Embedding of `impl From<i8> for Value`: nonnegative values are
canonicalized through `u8`. -/
def fromI8 (n : Int) : SamValue :=
  if n ≥ 0 then fromU8 n.toNat else .Int8 n

/-- Embedding of `impl From<u16> for Value`: values that fit in `u8`
are narrowed. -/
def fromU16 (n : Nat) : SamValue :=
  if n ≤ 255 then .UInt8 n else .UInt16 n

/-- Embedding of `impl From<i16> for Value`. -/
def fromI16 (n : Int) : SamValue :=
  if n ≥ 0 then fromU16 n.toNat
  else if n ≥ -128 then .Int8 n
  else .Int16 n

/-- Embedding of `impl From<u32> for Value`. -/
def fromU32 (n : Nat) : SamValue :=
  if n ≤ 255 then .UInt8 n
  else if n ≤ 65535 then .UInt16 n
  else .UInt32 n

/-- Embedding of `impl From<i32> for Value` (value.rs:568-579). -/
def fromI32 (n : Int) : SamValue :=
  if n ≥ 0 then fromU32 n.toNat
  else if n ≥ -128 then .Int8 n
  else if n ≥ -32768 then .Int16 n
  else .Int32 n

end SamValue

theorem samValue_asInt_fromU8 (n : Nat) :
    (SamValue.fromU8 n).asInt = some (n : Int) := rfl

theorem samValue_asInt_fromI8 (n : Int) (h0 : -128 ≤ n) (h1 : n ≤ 127) :
    (SamValue.fromI8 n).asInt = some n := by
  unfold SamValue.fromI8 SamValue.fromU8
  split
  · simp [SamValue.asInt]
    omega
  · rfl

theorem samValue_asInt_fromU16 (n : Nat) (h : n ≤ 65535) :
    (SamValue.fromU16 n).asInt = some (n : Int) := by
  unfold SamValue.fromU16
  split <;> rfl

theorem samValue_asInt_fromI16 (n : Int) (h0 : -32768 ≤ n) (h1 : n ≤ 32767) :
    (SamValue.fromI16 n).asInt = some n := by
  unfold SamValue.fromI16 SamValue.fromU16
  split
  · split
    · simp [SamValue.asInt]; omega
    · simp [SamValue.asInt]; omega
  · split <;> rfl

theorem samValue_asInt_fromU32 (n : Nat) (h : n ≤ 4294967295) :
    (SamValue.fromU32 n).asInt = some (n : Int) := by
  unfold SamValue.fromU32
  split
  · rfl
  · split <;> rfl

theorem samValue_asInt_fromI32 (n : Int) (h0 : -2147483648 ≤ n) (h1 : n ≤ 2147483647) :
    (SamValue.fromI32 n).asInt = some n := by
  unfold SamValue.fromI32 SamValue.fromU32
  split
  · split
    · simp [SamValue.asInt]; omega
    · split
      · simp [SamValue.asInt]; omega
      · simp [SamValue.asInt]; omega
  · split
    · rfl
    · split <;> rfl

/-- C9: `Base::complement` is an involution on all sixteen base variants. -/
theorem base_complement_involution (b : Base) :
    b.complement.complement = b := by
  cases b <;> rfl

/-- C10: the integer-to-`Value` conversions preserve the numeric value
despite width canonicalization: for each in-range `n` of type i8, u8,
i16, u16, i32 or u32, `Value::from(n).as_int() == Some(i64::from(n))`. -/
theorem samValue_from_int_preserves_value (n8 : Int) (u8 : Nat) (n16 : Int) (u16 : Nat)
    (n32 : Int) (u32 : Nat)
    (h8l : -128 ≤ n8) (h8u : n8 ≤ 127) (hu8 : u8 ≤ 255)
    (h16l : -32768 ≤ n16) (h16u : n16 ≤ 32767) (hu16 : u16 ≤ 65535)
    (h32l : -2147483648 ≤ n32) (h32u : n32 ≤ 2147483647) (hu32 : u32 ≤ 4294967295) :
    (SamValue.fromI8 n8).asInt = some n8 ∧
    (SamValue.fromU8 u8).asInt = some (u8 : Int) ∧
    (SamValue.fromI16 n16).asInt = some n16 ∧
    (SamValue.fromU16 u16).asInt = some (u16 : Int) ∧
    (SamValue.fromI32 n32).asInt = some n32 ∧
    (SamValue.fromU32 u32).asInt = some (u32 : Int) :=
  ⟨samValue_asInt_fromI8 n8 h8l h8u, samValue_asInt_fromU8 u8,
   samValue_asInt_fromI16 n16 h16l h16u, samValue_asInt_fromU16 u16 hu16,
   samValue_asInt_fromI32 n32 h32l h32u, samValue_asInt_fromU32 u32 hu32⟩

/-- Witness for C10 at concrete inputs covering narrowing and sign
canonicalization cases. -/
theorem samValue_from_int_preserves_value_witness :
    (SamValue.fromI8 (-5)).asInt = some (-5) ∧
    (SamValue.fromU8 200).asInt = some (200 : Int) ∧
    (SamValue.fromI16 300).asInt = some 300 ∧
    (SamValue.fromU16 70).asInt = some (70 : Int) ∧
    (SamValue.fromI32 (-40000)).asInt = some (-40000) ∧
    (SamValue.fromU32 100000).asInt = some (100000 : Int) :=
  samValue_from_int_preserves_value (-5) 200 300 70 (-40000) 100000
    (by decide) (by decide) (by decide) (by decide) (by decide) (by decide)
    (by decide) (by decide) (by decide)

/-! ## noodles-bam: lazy record data field value decoding
(src/noodles-bam/src/lazy/record/data/field/value.rs)

Bytes are modelled as `Nat` (each in 0..256 by construction of inputs);
a byte cursor `&mut &[u8]` is modelled by returning the remaining bytes
alongside the decoded value. The `Float` payload is kept as its raw
little-endian 32-bit pattern since no claim touches float arithmetic. -/

/-- The data field type tags of `noodles_sam::record::data::field::Type`. -/
inductive BamFieldType where
  | Character | Int8 | UInt8 | Int16 | UInt16 | Int32 | UInt32
  | Float | Str | Hex | Array
  deriving DecidableEq, Repr

/-- The typed array variants of `lazy::record::data::field::value::array::Array`.
Modelled from the spec: the array module itself is not in the sources, only
its decoder contract (one variant per numeric primitive subtype; float
elements kept as raw bit patterns). -/
inductive BamArray where
  | Int8A (xs : List Int)
  | UInt8A (xs : List Nat)
  | Int16A (xs : List Int)
  | UInt16A (xs : List Nat)
  | Int32A (xs : List Int)
  | UInt32A (xs : List Nat)
  | FloatA (xs : List Nat)
  deriving DecidableEq, Repr

/-- The lazy BAM data field `Value` enum (value.rs:10-23). String and Hex
payloads are the borrowed byte slices. -/
inductive BamValue where
  | Character (b : Nat)
  | Int8 (n : Int)
  | UInt8 (n : Nat)
  | Int16 (n : Int)
  | UInt16 (n : Nat)
  | Int32 (n : Int)
  | UInt32 (n : Nat)
  | Float (bits : Nat)
  | Str (s : List Nat)
  | Hex (s : List Nat)
  | ArrayV (a : BamArray)
  deriving DecidableEq, Repr

/-- Embedding of `ReadBytesExt::read_u8`: one byte or an unexpected-EOF error. -/
def read_u8 : List Nat → Except String (Nat × List Nat)
  | [] => .error "failed to fill whole buffer"
  | b :: rest => .ok (b, rest)

/-- Two's-complement reinterpretation of an unsigned `w`-bit value. -/
def toSigned (w : Nat) (n : Nat) : Int :=
  if n < 2 ^ (w - 1) then (n : Int) else (n : Int) - 2 ^ w

/-- Embedding of `ReadBytesExt::read_u16::<LittleEndian>`. -/
def read_u16le : List Nat → Except String (Nat × List Nat)
  | b0 :: b1 :: rest => .ok (b0 + 256 * b1, rest)
  | _ => .error "failed to fill whole buffer"

/-- Embedding of `ReadBytesExt::read_u32::<LittleEndian>`. -/
def read_u32le : List Nat → Except String (Nat × List Nat)
  | b0 :: b1 :: b2 :: b3 :: rest =>
      .ok (b0 + 256 * b1 + 65536 * b2 + 16777216 * b3, rest)
  | _ => .error "failed to fill whole buffer"

/-- Embedding of `Iterator::position` specialized to byte lists, as used by
`decode_string` (value.rs:76-79). -/
def bytePosition (p : Nat → Bool) : List Nat → Option Nat
  | [] => none
  | b :: rest => if p b then some 0 else (bytePosition p rest).map (· + 1)

/-- Embedding of `decode_string` (value.rs:73-87): scan for the first NUL,
return the slice before it, and consume the terminator as well. -/
def decode_string (src : List Nat) : Except String (List Nat × List Nat) :=
  match bytePosition (fun b => b == 0) src with
  | none => .error "string not NUL terminated"
  | some len => .ok (src.take len, src.drop (len + 1))

/-- Embedding of `decode_hex` (value.rs:89-91). -/
def decode_hex (src : List Nat) : Except String (BamValue × List Nat) :=
  (decode_string src).map (fun r => (BamValue.Hex r.1, r.2))

/-- Read `n` consecutive fixed-width values with a given element reader. -/
def readElems (reader : List Nat → Except String (Nat × List Nat)) :
    Nat → List Nat → Except String (List Nat × List Nat)
  | 0, src => .ok ([], src)
  | n + 1, src => do
    let (x, rest) ← reader src
    let (xs, rest') ← readElems reader n rest
    .ok (x :: xs, rest')

/-- Modelled from the spec: `decode_array` (the `array` submodule is not in
the sources). Wire format per §4.4: a one-byte element-subtype tag, a
4-byte little-endian element count, then count fixed-width little-endian
elements; dispatch on the subtype tag produces the matching typed array
variant, and an unrecognized subtype tag is a malformed-value error. -/
def decode_array (src : List Nat) : Except String (BamArray × List Nat) := do
  let (tag, rest) ← read_u8 src
  let (n, rest) ← read_u32le rest
  if tag = 0x63 then
    (readElems read_u8 n rest).map (fun r => (.Int8A (r.1.map (toSigned 8)), r.2))
  else if tag = 0x43 then
    (readElems read_u8 n rest).map (fun r => (.UInt8A r.1, r.2))
  else if tag = 0x73 then
    (readElems read_u16le n rest).map (fun r => (.Int16A (r.1.map (toSigned 16)), r.2))
  else if tag = 0x53 then
    (readElems read_u16le n rest).map (fun r => (.UInt16A r.1, r.2))
  else if tag = 0x69 then
    (readElems read_u32le n rest).map (fun r => (.Int32A (r.1.map (toSigned 32)), r.2))
  else if tag = 0x49 then
    (readElems read_u32le n rest).map (fun r => (.UInt32A r.1, r.2))
  else if tag = 0x66 then
    (readElems read_u32le n rest).map (fun r => (.FloatA r.1, r.2))
  else
    .error "invalid array subtype"

/-- Embedding of `decode_value` (value.rs:25-39): dispatch on the declared
type tag. -/
def decode_value (src : List Nat) (ty : BamFieldType) :
    Except String (BamValue × List Nat) :=
  match ty with
  | .Character => (read_u8 src).map (fun r => (BamValue.Character r.1, r.2))
  | .Int8 => (read_u8 src).map (fun r => (BamValue.Int8 (toSigned 8 r.1), r.2))
  | .UInt8 => (read_u8 src).map (fun r => (BamValue.UInt8 r.1, r.2))
  | .Int16 => (read_u16le src).map (fun r => (BamValue.Int16 (toSigned 16 r.1), r.2))
  | .UInt16 => (read_u16le src).map (fun r => (BamValue.UInt16 r.1, r.2))
  | .Int32 => (read_u32le src).map (fun r => (BamValue.Int32 (toSigned 32 r.1), r.2))
  | .UInt32 => (read_u32le src).map (fun r => (BamValue.UInt32 r.1, r.2))
  | .Float => (read_u32le src).map (fun r => (BamValue.Float r.1, r.2))
  | .Str => (decode_string src).map (fun r => (BamValue.Str r.1, r.2))
  | .Hex => decode_hex src
  | .Array => (decode_array src).map (fun r => (BamValue.ArrayV r.1, r.2))

theorem bytePosition_none_of_no_match (p : Nat → Bool) (l : List Nat)
    (h : ∀ b ∈ l, p b = false) : bytePosition p l = none := by
  induction l with
  | nil => rfl
  | cons b rest ih =>
    simp only [bytePosition]
    rw [h b (List.mem_cons_self b rest)]
    simp [ih (fun x hx => h x (List.mem_cons_of_mem b hx))]

theorem bytePosition_append_first (p : Nat → Bool) (pre post : List Nat) (b : Nat)
    (hpre : ∀ x ∈ pre, p x = false) (hb : p b = true) :
    bytePosition p (pre ++ b :: post) = some pre.length := by
  induction pre with
  | nil => simp [bytePosition, hb]
  | cons a rest ih =>
    simp only [List.cons_append, bytePosition]
    rw [hpre a (List.mem_cons_self a rest)]
    simp [ih (fun x hx => hpre x (List.mem_cons_of_mem a hx))]

/-- C2: decoding a String or Hex value returns exactly the slice before the
first NUL, consumes the terminator too, and fails with a malformed-value
error when the input holds no NUL at all. -/
theorem decode_string_nul_contract (pre post nonul : List Nat)
    (hpre : ∀ b ∈ pre, b ≠ 0) (hno : ∀ b ∈ nonul, b ≠ 0) :
    decode_string (pre ++ 0 :: post) = .ok (pre, post) ∧
    decode_hex (pre ++ 0 :: post) = .ok (BamValue.Hex pre, post) ∧
    decode_string nonul = .error "string not NUL terminated" ∧
    decode_hex nonul = .error "string not NUL terminated" := by
  have hpos : bytePosition (fun b => b == 0) (pre ++ 0 :: post) = some pre.length := by
    apply bytePosition_append_first
    · intro x hx
      simpa using hpre x hx
    · simp
  have hnone : bytePosition (fun b => b == 0) nonul = none := by
    apply bytePosition_none_of_no_match
    intro x hx
    simpa using hno x hx
  have hstr : decode_string (pre ++ 0 :: post) = .ok (pre, post) := by
    have htake : (pre ++ 0 :: post).take pre.length = pre := by
      simpa using List.take_left pre (0 :: post)
    have hdrop : (pre ++ 0 :: post).drop (pre.length + 1) = post := by
      have hsplit : pre ++ 0 :: post = (pre ++ [0]) ++ post := by simp
      rw [hsplit]
      have hlen : pre.length + 1 = (pre ++ [0]).length := by simp
      rw [hlen]
      exact List.drop_left (pre ++ [0]) post
    unfold decode_string
    rw [hpos]
    show Except.ok ((pre ++ 0 :: post).take pre.length,
      (pre ++ 0 :: post).drop (pre.length + 1)) = Except.ok (pre, post)
    rw [htake, hdrop]
  have hstrn : decode_string nonul = .error "string not NUL terminated" := by
    unfold decode_string
    rw [hnone]
  refine ⟨hstr, ?_, hstrn, ?_⟩
  · unfold decode_hex
    rw [hstr]
    rfl
  · unfold decode_hex
    rw [hstrn]
    rfl

/-- Witness for C2: decoding `"ndls\x00\x07"` yields `"ndls"` with the
byte `0x07` left unconsumed, and decoding `[1, 2, 3]` fails. -/
theorem decode_string_nul_contract_witness :
    decode_string [0x6e, 0x64, 0x6c, 0x73, 0, 0x07] = .ok ([0x6e, 0x64, 0x6c, 0x73], [0x07]) ∧
    decode_hex [0x6e, 0x64, 0x6c, 0x73, 0, 0x07] =
      .ok (BamValue.Hex [0x6e, 0x64, 0x6c, 0x73], [0x07]) ∧
    decode_string [1, 2, 3] = .error "string not NUL terminated" ∧
    decode_hex [1, 2, 3] = .error "string not NUL terminated" :=
  decode_string_nul_contract [0x6e, 0x64, 0x6c, 0x73] [0x07] [1, 2, 3]
    (by decide) (by decide)

/-- C7: decoding the Array-typed bytes `[0x43, 0x01, 0x00, 0x00, 0x00, 0x00]`
(subtype tag `C`, little-endian count 1, one element `0x00`) yields the
unsigned 8-bit array `[0]`, consuming the whole input. -/
theorem decode_value_uint8_array_example :
    decode_value [0x43, 0x01, 0x00, 0x00, 0x00, 0x00] .Array =
      .ok (BamValue.ArrayV (BamArray.UInt8A [0]), []) := by
  rfl

/-! ## noodles-bcf: site filters encoding
(src/noodles-bcf/src/record/codec/encoder/site/filters.rs)

The header's string map is modelled as its ordered list of unique
identifier strings; `IndexSet::get_index_of` is insertion-order lookup. -/

/-- Embedding of `IndexSet::get_index_of`: the position of an identifier in the ordered
string map, if present. -/
def stringMapGetIndexOf : List String → String → Option Nat
  | [], _ => none
  | s :: rest, id => if s = id then some 0 else (stringMapGetIndexOf rest id).map (· + 1)

/-- Modelled from the spec: `write_string_map_indices` (the
`encoder::string_map` module is not in the sources). Per §4.5 an empty
index collection encodes as a single zero-count marker byte `0x00`;
otherwise the indices are written as a length-prefixed compact integer
array — for up to 14 indices each fitting in `int8`, a descriptor byte
holding (count << 4 | int8-type-tag 0x1) followed by the index bytes,
matching the byte sequences asserted by `test_write_filters`. -/
def write_string_map_indices (indices : List Nat) : List Nat :=
  match indices with
  | [] => [0x00]
  | _ => (indices.length * 16 + 1) :: indices

/-- Resolution of filter identifiers to string map indices, as in the
`collect::<Result<_, _>>()` over the mapped iterator in `write_filters`
(filters.rs:16-32): the first missing identifier aborts with an error. -/
def resolve_filter_indices (strings : List String) : List String → Except String (List Nat)
  | [] => .ok []
  | id :: rest =>
    match stringMapGetIndexOf strings id with
    | none => .error ("filter missing from string map: " ++ id)
    | some i => (resolve_filter_indices strings rest).map (fun is => i :: is)

/-- Embedding of `write_filters` (filters.rs:5-35): resolve every filter
identifier against the header string map, then write the index array. The
output bytes exist only if every lookup succeeded. -/
def write_filters (strings : List String) (filters : List String) :
    Except String (List Nat) :=
  (resolve_filter_indices strings filters).map write_string_map_indices

theorem resolve_filter_indices_error_iff (strings : List String) (filters : List String) :
    (∃ msg, resolve_filter_indices strings filters = .error msg) ↔
      (∃ id ∈ filters, stringMapGetIndexOf strings id = none) := by
  induction filters with
  | nil =>
    simp only [resolve_filter_indices]
    constructor
    · rintro ⟨msg, h⟩
      exact absurd h (by simp)
    · rintro ⟨id, hmem, _⟩
      exact absurd hmem (by simp)
  | cons id rest ih =>
    simp only [resolve_filter_indices]
    constructor
    · rintro ⟨msg, h⟩
      cases hids : stringMapGetIndexOf strings id with
      | none => exact ⟨id, List.mem_cons_self id rest, hids⟩
      | some i =>
        rw [hids] at h
        cases hrest : resolve_filter_indices strings rest with
        | error m =>
          obtain ⟨id', hmem, hnone⟩ := ih.mp ⟨m, hrest⟩
          exact ⟨id', List.mem_cons_of_mem id hmem, hnone⟩
        | ok is =>
          rw [hrest] at h
          exact absurd h (by simp [Except.map])
    · rintro ⟨id', hmem, hnone⟩
      rcases List.mem_cons.mp hmem with heq | hmem'
      · subst heq
        rw [hnone]
        exact ⟨"filter missing from string map: " ++ id', rfl⟩
      · cases hids : stringMapGetIndexOf strings id with
        | none => exact ⟨"filter missing from string map: " ++ id, rfl⟩
        | some i =>
          obtain ⟨m, hrest⟩ := ih.mpr ⟨id', hmem', hnone⟩
          rw [hrest]
          exact ⟨m, rfl⟩

/-- C4: encoding a collection of filter identifiers fails with an error —
producing no output bytes — exactly when some identifier is absent from
the header string map; lookups are exact and the dictionary is a pure
input the encoder never extends. -/
theorem write_filters_error_iff_missing (strings : List String) (filters : List String) :
    (∃ msg, write_filters strings filters = .error msg) ↔
      (∃ id ∈ filters, stringMapGetIndexOf strings id = none) := by
  rw [← resolve_filter_indices_error_iff]
  unfold write_filters
  constructor
  · rintro ⟨msg, h⟩
    cases hres : resolve_filter_indices strings filters with
    | error m => exact ⟨m, rfl⟩
    | ok is =>
      rw [hres] at h
      exact absurd h (by simp [Except.map])
  · rintro ⟨msg, h⟩
    rw [h]
    exact ⟨msg, rfl⟩

/-- C5: against the test header's string map `["PASS", "s50", "q10"]`,
the empty filter set encodes as the single zero-count marker byte `0x00`,
the set `{"PASS"}` encodes as a one-element int8 index array holding
index 0 (bytes `[0x11, 0x00]`), and the two encodings differ. -/
theorem write_filters_empty_and_pass :
    write_filters ["PASS", "s50", "q10"] [] = .ok [0x00] ∧
    write_filters ["PASS", "s50", "q10"] ["PASS"] = .ok [0x11, 0x00] ∧
    ([0x00] : List Nat) ≠ [0x11, 0x00] := by
  refine ⟨rfl, ?_, by decide⟩
  rfl

/-! ## noodles-bcf: indexed query iterator
(src/noodles-bcf/src/io/reader/query.rs)

The chunk-driven reader is modelled as the stream of outcomes of
`Query::next_record`: each element is either a successfully decoded
record or a read error, and the stream ends where `next_record` returns
`Ok(None)`. A decoded record is modelled by the results of the three
accessors `intersects` consults. -/

/-- Modelled from the spec: `noodles_core::region::Interval` with optional
closed bounds; `Interval::intersects` resolves an unbounded side to the
corresponding extreme, so two intervals intersect when each start is at
most the other's end. -/
structure IntervalB where
  istart : Option Int
  iend : Option Int
  deriving DecidableEq, Repr

/-- Comparison of a possibly-unbounded start against a possibly-unbounded
end: a missing bound resolves to the extreme, making the comparison true. -/
def optLe : Option Int → Option Int → Bool
  | some a, some b => a ≤ b
  | _, _ => true

/-- Modelled from the spec: interval intersection over optional bounds. -/
def IntervalB.intersects (a b : IntervalB) : Bool :=
  optLe a.istart b.iend && optLe b.istart a.iend

/-- A decoded BCF record as consulted by `intersects` (query.rs:76-103):
the outcome of `reference_sequence_name` against the header string maps,
of `variant_start` (`None` when the position is missing), and of
`variant_end`. -/
structure BcfQRecord where
  refName : Except String String
  variantStart : Option (Except String Int)
  variantEnd : Except String Int

/-- Embedding of `intersects` (query.rs:76-103): resolve the chromosome
name, look it up in the contig string map (an unknown name is an error),
return `false` when the variant start is missing, otherwise compare the
resolved id with the query's chromosome id and intersect the record
interval `[start, end]` with the region interval. -/
def bcfIntersects (contigs : List String) (record : BcfQRecord) (chromosomeId : Nat)
    (regionInterval : IntervalB) : Except String Bool :=
  match record.refName with
  | .error e => .error e
  | .ok chromosome =>
    match stringMapGetIndexOf contigs chromosome with
    | none => .error ("chromosome does not exist in contigs: " ++ chromosome)
    | some id =>
      match record.variantStart with
      | some (.error e) => .error e
      | none => .ok false
      | some (.ok s) =>
        match record.variantEnd with
        | .error e => .error e
        | .ok e =>
          .ok (id == chromosomeId && IntervalB.intersects ⟨some s, some e⟩ regionInterval)

/-- Embedding of `Query::next` (query.rs:59-73) as a step on the stream of
`next_record` outcomes: skip records whose `intersects` check is `Ok(false)`,
yield the first record whose check is `Ok(true)`, and yield an error item
on a read error or an `intersects` error; the empty stream is exhaustion. -/
def queryNext (contigs : List String) (chromosomeId : Nat) (iv : IntervalB) :
    List (Except String BcfQRecord) →
      Option (Except String BcfQRecord) × List (Except String BcfQRecord)
  | [] => (none, [])
  | .error e :: rest => (some (.error e), rest)
  | .ok r :: rest =>
    match bcfIntersects contigs r chromosomeId iv with
    | .ok true => (some (.ok r), rest)
    | .ok false => queryNext contigs chromosomeId iv rest
    | .error e => (some (.error e), rest)

/-- The full item sequence produced by repeatedly calling `Query::next`
until exhaustion. -/
def queryRun (contigs : List String) (chromosomeId : Nat) (iv : IntervalB) :
    List (Except String BcfQRecord) → List (Except String BcfQRecord)
  | [] => []
  | .error e :: rest => .error e :: queryRun contigs chromosomeId iv rest
  | .ok r :: rest =>
    match bcfIntersects contigs r chromosomeId iv with
    | .ok true => .ok r :: queryRun contigs chromosomeId iv rest
    | .ok false => queryRun contigs chromosomeId iv rest
    | .error e => .error e :: queryRun contigs chromosomeId iv rest

/-- Predicate written from the claim's words, for comparison with the
iterator: the record's resolved reference sequence id equals the query's
chromosome id and the record interval `[variant start, variant end]`
intersects the query interval. -/
def recordMatchesQuery (contigs : List String) (chromosomeId : Nat) (iv : IntervalB)
    (r : BcfQRecord) : Bool :=
  match r.refName with
  | .error _ => false
  | .ok name =>
    match stringMapGetIndexOf contigs name, r.variantStart, r.variantEnd with
    | some id, some (.ok s), .ok e =>
      id == chromosomeId && IntervalB.intersects ⟨some s, some e⟩ iv
    | _, _, _ => false

theorem bcfIntersects_resolved (contigs : List String) (cid : Nat) (iv : IntervalB)
    (r : BcfQRecord) (name : String) (id : Nat) (s e : Int)
    (hname : r.refName = .ok name) (hidx : stringMapGetIndexOf contigs name = some id)
    (hs : r.variantStart = some (.ok s)) (he : r.variantEnd = .ok e) :
    bcfIntersects contigs r cid iv =
      .ok (id == cid && IntervalB.intersects ⟨some s, some e⟩ iv) := by
  unfold bcfIntersects
  rw [hname]
  simp only [hidx, hs, he]

theorem recordMatchesQuery_resolved (contigs : List String) (cid : Nat) (iv : IntervalB)
    (r : BcfQRecord) (name : String) (id : Nat) (s e : Int)
    (hname : r.refName = .ok name) (hidx : stringMapGetIndexOf contigs name = some id)
    (hs : r.variantStart = some (.ok s)) (he : r.variantEnd = .ok e) :
    recordMatchesQuery contigs cid iv r =
      (id == cid && IntervalB.intersects ⟨some s, some e⟩ iv) := by
  unfold recordMatchesQuery
  rw [hname]
  simp only [hidx, hs, he]

/-- C1: over any stream of successfully decoded, fully resolvable records,
the Query iterator yields exactly the records whose resolved reference
sequence id equals the query's chromosome id and whose interval
`[variant start, variant end]` intersects the query interval; all other
records are skipped, not yielded. -/
theorem query_yields_exactly_intersecting (contigs : List String) (cid : Nat)
    (iv : IntervalB) (recs : List BcfQRecord)
    (hres : ∀ r ∈ recs, ∃ name id s e, r.refName = .ok name ∧
        stringMapGetIndexOf contigs name = some id ∧
        r.variantStart = some (.ok s) ∧ r.variantEnd = .ok e) :
    queryRun contigs cid iv (recs.map .ok) =
      (recs.filter (recordMatchesQuery contigs cid iv)).map .ok := by
  induction recs with
  | nil => rfl
  | cons r rest ih =>
    obtain ⟨name, id, s, e, hname, hidx, hs, he⟩ := hres r (List.mem_cons_self r rest)
    have hrest := ih (fun x hx => hres x (List.mem_cons_of_mem r hx))
    have hbi := bcfIntersects_resolved contigs cid iv r name id s e hname hidx hs he
    have hmq := recordMatchesQuery_resolved contigs cid iv r name id s e hname hidx hs he
    simp only [List.map_cons, queryRun, hbi, List.filter_cons, hmq]
    cases hb : (id == cid && IntervalB.intersects ⟨some s, some e⟩ iv) with
    | true => simp [hrest]
    | false => simp [hrest]

/-- Witness for C1: of three well-formed records — one on the queried
chromosome overlapping the region, one on another chromosome, one outside
the region — the iterator yields exactly the first. -/
theorem query_yields_exactly_intersecting_witness :
    queryRun ["sq0", "sq1"] 0 ⟨some 1, some 10⟩
        [.ok ⟨.ok "sq0", some (.ok 5), .ok 8⟩,
         .ok ⟨.ok "sq1", some (.ok 5), .ok 8⟩,
         .ok ⟨.ok "sq0", some (.ok 20), .ok 30⟩] =
      [.ok ⟨.ok "sq0", some (.ok 5), .ok 8⟩] := by
  have h := query_yields_exactly_intersecting ["sq0", "sq1"] 0 ⟨some 1, some 10⟩
    [⟨.ok "sq0", some (.ok 5), .ok 8⟩,
     ⟨.ok "sq1", some (.ok 5), .ok 8⟩,
     ⟨.ok "sq0", some (.ok 20), .ok 30⟩]
    (by
      intro r hr
      rcases List.mem_cons.mp hr with h1 | hr
      · exact ⟨"sq0", 0, 5, 8, by rw [h1], by rfl, by rw [h1], by rw [h1]⟩
      rcases List.mem_cons.mp hr with h2 | hr
      · exact ⟨"sq1", 1, 5, 8, by rw [h2], by rfl, by rw [h2], by rw [h2]⟩
      rcases List.mem_cons.mp hr with h3 | hr
      · exact ⟨"sq0", 0, 20, 30, by rw [h3], by rfl, by rw [h3], by rw [h3]⟩
      · exact absurd hr (List.not_mem_nil r))
  exact h.trans rfl

/-- Counterexample to C3: after the Query iterator yields an error item
(here a read error from `next_record`), the very next call to `next`
yields a further record — the iterator is not exhausted by the error. -/
theorem query_error_not_terminal_example :
    queryNext ["sq0"] 0 ⟨some 1, some 10⟩
        [.error "unexpected end of file", .ok ⟨.ok "sq0", some (.ok 5), .ok 8⟩] =
      (some (.error "unexpected end of file"), [.ok ⟨.ok "sq0", some (.ok 5), .ok 8⟩]) ∧
    queryNext ["sq0"] 0 ⟨some 1, some 10⟩ [.ok ⟨.ok "sq0", some (.ok 5), .ok 8⟩] =
      (some (.ok ⟨.ok "sq0", some (.ok 5), .ok 8⟩), []) :=
  ⟨rfl, rfl⟩

/-- C3 amended: when decoding a record fails, the Query iterator yields
that error as an item, but the iterator is not fused: the following call
to `next` resumes on the remaining stream and may yield further records;
only an exhausted (empty) stream yields no item. -/
theorem query_error_yields_item_then_resumes (contigs : List String) (cid : Nat)
    (iv : IntervalB) (e : String) (rest : List (Except String BcfQRecord)) :
    queryNext contigs cid iv (.error e :: rest) = (some (.error e), rest) ∧
    queryRun contigs cid iv (.error e :: rest) = .error e :: queryRun contigs cid iv rest ∧
    queryNext contigs cid iv [] = (none, []) :=
  ⟨rfl, rfl, rfl⟩

/-- Counterexample to C8: a record whose variant start is missing but whose
chromosome name is absent from the contig dictionary makes `intersects`
return an error — not `false` — so the record produces an error item
rather than being silently skipped. -/
theorem query_missing_start_error_example :
    bcfIntersects ["sq0"] ⟨.ok "chrX", none, .ok 3⟩ 0 ⟨some 1, some 10⟩ =
      .error "chromosome does not exist in contigs: chrX" ∧
    queryNext ["sq0"] 0 ⟨some 1, some 10⟩ [.ok ⟨.ok "chrX", none, .ok 3⟩] =
      (some (.error "chromosome does not exist in contigs: chrX"), []) :=
  ⟨rfl, rfl⟩

/-- C8 amended: for every decoded record whose chromosome name resolves to
an id in the contig dictionary and whose variant start is absent,
`intersects` returns `Ok(false)` before computing the record interval
(even when computing the variant end would fail), so the record is
silently skipped: neither yielded nor turned into an error item. -/
theorem query_missing_start_skipped (contigs : List String) (cid : Nat)
    (iv : IntervalB) (r : BcfQRecord) (name : String) (id : Nat)
    (hname : r.refName = .ok name)
    (hidx : stringMapGetIndexOf contigs name = some id)
    (hstart : r.variantStart = none)
    (rest : List (Except String BcfQRecord)) :
    bcfIntersects contigs r cid iv = .ok false ∧
    queryNext contigs cid iv (.ok r :: rest) = queryNext contigs cid iv rest ∧
    queryRun contigs cid iv (.ok r :: rest) = queryRun contigs cid iv rest := by
  have hbi : bcfIntersects contigs r cid iv = .ok false := by
    unfold bcfIntersects
    rw [hname]
    simp only [hidx, hstart]
  refine ⟨hbi, ?_, ?_⟩
  · simp only [queryNext, hbi]
  · simp only [queryRun, hbi]

/-- Witness for the amended C8: a record on a known chromosome with a
missing start — and an erroring end accessor — is skipped without any
yielded item or error. -/
theorem query_missing_start_skipped_witness :
    bcfIntersects ["sq0"] ⟨.ok "sq0", none, .error "no end"⟩ 0 ⟨some 1, some 10⟩ =
      .ok false ∧
    queryNext ["sq0"] 0 ⟨some 1, some 10⟩ [.ok ⟨.ok "sq0", none, .error "no end"⟩] =
      queryNext ["sq0"] 0 ⟨some 1, some 10⟩ [] ∧
    queryRun ["sq0"] 0 ⟨some 1, some 10⟩ [.ok ⟨.ok "sq0", none, .error "no end"⟩] =
      queryRun ["sq0"] 0 ⟨some 1, some 10⟩ [] :=
  query_missing_start_skipped ["sq0"] 0 ⟨some 1, some 10⟩
    ⟨.ok "sq0", none, .error "no end"⟩ "sq0" 0 rfl rfl rfl []

/-! ## noodles-gff: indexed region query (src/noodles-gff/src/reader.rs)

`Reader::query` resolves the region name against the index header's
reference sequence names and asks the binning index for candidate chunks;
the downstream decoding of those chunks is abstracted as a store mapping
each chunk to its decoded items, since the claim concerns only the
open-time error behaviour and emptiness. -/

/-- A chunk of the compressed stream: a pair of virtual offsets. -/
structure Chunk where
  cstart : Nat
  cend : Nat
  deriving DecidableEq, Repr

/-- The tabix-style index header part consulted by `Reader::query`:
its ordered reference sequence name dictionary. -/
structure CsiIndexHeader where
  referenceSequenceNames : List String

/-- The binning index as consumed by `Reader::query`: an optional header
and, per reference sequence id, the indexed chunk data. -/
structure CsiIndex where
  header : Option CsiIndexHeader
  referenceSequences : List (List Chunk)

/-- A genomic region: a reference sequence name and an interval. -/
structure Region where
  rname : String
  rinterval : IntervalB

/-- Modelled from the spec: `csi::Index::query` (the noodles-csi sources
are not included). Per §4.2 it fails only when the supplied reference
sequence id is not known to the index at all, and returns the candidate
chunk list — empty when that reference sequence has no indexed data —
otherwise. -/
def csiIndexQuery (referenceSequences : List (List Chunk)) (refId : Nat) :
    Except String (List Chunk) :=
  match referenceSequences.get? refId with
  | none => .error "invalid reference sequence id"
  | some chunks => .ok chunks

/-- Decoding of the returned chunks, abstracted as a store from chunks to
their decoded items; no chunks means no items. -/
def chunksRecords (store : Chunk → List (Except String String))
    (chunks : List Chunk) : List (Except String String) :=
  (chunks.map store).flatten

/-- Embedding of `Reader::query` (reader.rs:202-235): require the index
header, resolve the region name in its reference sequence name dictionary
(an absent name is the `missing reference sequence name` error), query the
binning index with the resolved id, and decode the resulting chunks. -/
def gffReaderQuery (store : Chunk → List (Except String String))
    (index : CsiIndex) (region : Region) :
    Except String (List (Except String String)) :=
  match index.header with
  | none => .error "missing index header"
  | some hdr =>
    match stringMapGetIndexOf hdr.referenceSequenceNames region.rname with
    | none => .error "missing reference sequence name"
    | some refSeqId =>
      (csiIndexQuery index.referenceSequences refSeqId).map (chunksRecords store)

theorem stringMapGetIndexOf_lt_length (l : List String) (s : String) (i : Nat)
    (h : stringMapGetIndexOf l s = some i) : i < l.length := by
  induction l generalizing i with
  | nil => simp [stringMapGetIndexOf] at h
  | cons a rest ih =>
    simp only [stringMapGetIndexOf] at h
    by_cases ha : a = s
    · rw [if_pos ha] at h
      obtain rfl : (0 : Nat) = i := Option.some.inj h
      simp
    · rw [if_neg ha] at h
      cases hr : stringMapGetIndexOf rest s with
      | none => rw [hr] at h; simp at h
      | some j =>
        rw [hr] at h
        obtain rfl : j + 1 = i := Option.some.inj (by simpa using h)
        have hj := ih j hr
        simp only [List.length_cons]
        omega

theorem stringMapGetIndexOf_eq_none_iff (l : List String) (s : String) :
    stringMapGetIndexOf l s = none ↔ s ∉ l := by
  induction l with
  | nil => simp [stringMapGetIndexOf]
  | cons a rest ih =>
    simp only [stringMapGetIndexOf, List.mem_cons]
    by_cases ha : a = s
    · simp [ha]
    · rw [if_neg ha]
      rw [Option.map_eq_none', ih]
      constructor
      · intro hn hc
        rcases hc with hc | hc
        · exact ha hc.symm
        · exact hn hc
      · exact fun hn hc => hn (Or.inr hc)

/-- C6: for an index whose header's reference sequence name dictionary is
in step with its per-reference data, opening a region query fails exactly
when the region's reference sequence name is absent from that dictionary;
a known name whose reference sequence has no indexed chunks yields a
valid empty sequence of records, not an error. -/
theorem gff_query_error_iff_unknown_name (store : Chunk → List (Except String String))
    (index : CsiIndex) (region : Region) (hdr : CsiIndexHeader)
    (hh : index.header = some hdr)
    (hlen : hdr.referenceSequenceNames.length = index.referenceSequences.length) :
    ((∃ msg, gffReaderQuery store index region = .error msg) ↔
      region.rname ∉ hdr.referenceSequenceNames) ∧
    (∀ refSeqId, stringMapGetIndexOf hdr.referenceSequenceNames region.rname = some refSeqId →
      index.referenceSequences.get? refSeqId = some [] →
      gffReaderQuery store index region = .ok []) := by
  constructor
  · constructor
    · rintro ⟨msg, herr⟩
      cases hlook : stringMapGetIndexOf hdr.referenceSequenceNames region.rname with
      | none => exact (stringMapGetIndexOf_eq_none_iff _ _).mp hlook
      | some refSeqId =>
        unfold gffReaderQuery at herr
        rw [hh] at herr
        simp only [hlook] at herr
        have hlt : refSeqId < index.referenceSequences.length := by
          rw [← hlen]
          exact stringMapGetIndexOf_lt_length _ _ _ hlook
        unfold csiIndexQuery at herr
        rw [List.get?_eq_get hlt] at herr
        simp [Except.map] at herr
    · intro habs
      unfold gffReaderQuery
      rw [hh]
      simp only [(stringMapGetIndexOf_eq_none_iff _ _).mpr habs]
      exact ⟨"missing reference sequence name", rfl⟩
  · intro refSeqId hlook hget
    unfold gffReaderQuery
    rw [hh]
    simp only [hlook]
    unfold csiIndexQuery
    rw [hget]
    rfl

/-- Witness for C6: an index knowing only `sq0` with no indexed chunks for
it; querying `sq0` yields the empty record sequence while an unknown name
is exactly the error case. -/
theorem gff_query_error_iff_unknown_name_witness :
    ((∃ msg, gffReaderQuery (fun _ => [])
        ⟨some ⟨["sq0"]⟩, [[]]⟩ ⟨"chrZ", ⟨some 1, some 10⟩⟩ = .error msg) ↔
      "chrZ" ∉ ["sq0"]) ∧
    ((∃ msg, gffReaderQuery (fun _ => [])
        ⟨some ⟨["sq0"]⟩, [[]]⟩ ⟨"sq0", ⟨some 1, some 10⟩⟩ = .error msg) ↔
      "sq0" ∉ ["sq0"]) ∧
    gffReaderQuery (fun _ => []) ⟨some ⟨["sq0"]⟩, [[]]⟩ ⟨"sq0", ⟨some 1, some 10⟩⟩ =
      .ok [] := by
  refine ⟨?_, ?_, ?_⟩
  · exact (gff_query_error_iff_unknown_name (fun _ => [])
      ⟨some ⟨["sq0"]⟩, [[]]⟩ ⟨"chrZ", ⟨some 1, some 10⟩⟩ ⟨["sq0"]⟩ rfl rfl).1
  · exact (gff_query_error_iff_unknown_name (fun _ => [])
      ⟨some ⟨["sq0"]⟩, [[]]⟩ ⟨"sq0", ⟨some 1, some 10⟩⟩ ⟨["sq0"]⟩ rfl rfl).1
  · exact (gff_query_error_iff_unknown_name (fun _ => [])
      ⟨some ⟨["sq0"]⟩, [[]]⟩ ⟨"sq0", ⟨some 1, some 10⟩⟩ ⟨["sq0"]⟩ rfl rfl).2 0 rfl rfl
